import Mathlib

set_option maxRecDepth 100000

/-!
Verification of the LSB steganography codec in `steg_module.js`.

The codec hides a message in the least-significant bits of an image's pixel
bytes.  `StegModule.prototype.hide` frames the message as
`STEG_MAGIC ++ msg ++ '\0'`, checks capacity and an already-hidden marker, and
writes the framed bytes bit by bit (MSB first, one pixel byte per bit) into a
copy of the image.  `StegModule.prototype.unhide` decodes one payload byte per
eight pixel bytes until a NUL byte appears or the buffer runs out, then strips
the magic marker.

JavaScript semantics mirrored here:

* `pixelBytes[i]` for `i` out of range is `undefined`; the source only ever
  tests `pixelBytes[i] % 2 === 0`, and `undefined % 2 === 0` is `false`, so an
  out-of-range read behaves exactly like an odd byte (bit `1`).  We model this
  in `lsbAt`.
* an out-of-range write cannot change a fixed-length pixel array (the Ppm
  collaborator stores raster bytes in a typed array of fixed length; the spec's
  PixelBuffer invariant says the buffer length never changes), so `writeBitAt`
  leaves the buffer unchanged there, which is also what `List.set` does.
* the source's binary → hexadecimal → character round trip in both decode
  loops (`parseInt(binaryNum, 2).toString(16)` followed by per-2-digit
  `String.fromCharCode(parseInt(_, 16))`) maps eight bits read MSB-first to the
  single character whose code is the corresponding value in `0..255`; we model
  a decoded character directly as that numeric value (`decodeByte`).
* `msg.charCodeAt(i)` for `i ≥ msg.length` is `NaN`; the source then builds
  `("00000000" + NaN.toString(2)).substr(-8) = "00000NaN"`, whose characters
  compare equal to neither `'0'` nor `'1'`.  The embedding loop of `hide` runs
  for `msg.length + 4` characters, so its last four iterations use this
  pattern; `WriteBit.junk` models the characters `'N'`/`'a'`.

Messages and pixel buffers are modelled as `List Nat` (UTF-16 code units /
byte values); the error strings are the exact string literals of the source.
The `Ppm` image value itself (constructor `new Ppm(ppm)`) is not part of
`src/`, so its copy-construction is modelled from the spec, see `Ppm`.
-/

namespace Steg

/-- Modelled from the spec: the `Ppm` image collaborator (file `ppm.js` is not
part of the analysed source).  Per spec §3 and §6 it carries opaque metadata
(header, comments, resolution, color depth) plus a pixel-byte sequence, and
`new Ppm(ppm)` copies all of it; `hide` then mutates only the copy's
`pixelBytes`.  In this pure model the copy-and-mutate is expressed by building
a new `Ppm` with the same metadata fields and a rewritten buffer. -/
structure Ppm where
  header : String
  comments : List String
  resolution : Nat × Nat
  colorDepth : Nat
  pixelBytes : List Nat
  deriving DecidableEq

/-- The constant `STEG_MAGIC = 'stg'` as the list of its character codes. -/
def STEG_MAGIC : List Nat := [115, 116, 103]

/-- Error string of `hide`'s capacity check (line 71). -/
def STEG_TOO_BIG_ERR : String := "STEG_TOO_BIG error!"

/-- Error string of `hide`'s already-hidden check (line 95). -/
def STEG_MSG_ERR : String := "STEG_MSG: image already contains a hidden message!"

/-- Error string of `unhide`'s missing-magic check (line 193). -/
def STEG_NO_MSG_ERR : String := "STEG_NO_MSG: image does not have a message!"

/-- Error string of `unhide`'s missing-terminator check (line 182). -/
def STEG_BAD_MSG_ERR : String := "STEG_BAD_MSG: bad message!"

/-- Framing step `msg = STEG_MAGIC + msg + '\0'` (line 61). -/
def framedMsg (msg : List Nat) : List Nat := STEG_MAGIC ++ msg ++ [0]

/-- The LSB the source reads at index `idx`: `pixelBytes[idx] % 2 === 0` gives
bit `0`, otherwise (odd byte, or `undefined` from an out-of-range read, since
`undefined % 2 === 0` is `false`) bit `1`. -/
def lsbAt (buf : List Nat) (idx : Nat) : Nat :=
  match buf.get? idx with
  | some p => p % 2
  | none => 1

/-- One decoded payload byte: the LSBs of pixel bytes `8*k .. 8*k+7`
concatenated MSB-first (the inner `j` loops at lines 78-86 and 159-168,
followed by the binary → hexadecimal → character conversion, which yields the
character of exactly this value). -/
def decodeByte (buf : List Nat) (k : Nat) : Nat :=
  (List.range 8).foldl (fun acc j => 2 * acc + lsbAt buf (8 * k + j)) 0

/-- The three characters decoded by `hide`'s "stg control" loop
(lines 76-93). -/
def decodeFirst3 (buf : List Nat) : List Nat :=
  [decodeByte buf 0, decodeByte buf 1, decodeByte buf 2]

/-- The bytes decoded before the terminator at group index `t`:
what the spec calls the payload preceding the NUL. -/
def decodedBytesBefore (buf : List Nat) (t : Nat) : List Nat :=
  (List.range t).map (decodeByte buf)

/-- One character of `binOfCh` as the embedding loop of `hide` consumes it:
`'0'`, `'1'`, or (from the `"00000NaN"` pattern of an out-of-range
`charCodeAt`) a character that is neither. -/
inductive WriteBit where
  | zero
  | one
  | junk
  deriving DecidableEq

/-- Bit `j` (MSB-first) of character code `c`: the source computes
`("00000000" + c.toString(2)).substr(-8)`, i.e. the last eight binary digits
of `c`, which are the bits of `c % 256`. -/
def bitAt (c j : Nat) : WriteBit :=
  if c % 256 / 2 ^ (7 - j) % 2 = 1 then .one else .zero

/-- The `binOfCh` characters produced for `i ≥ msg.length`:
`("00000000" + "NaN").substr(-8) = "00000NaN"` — positions 0-4 hold `'0'`,
positions 5-7 hold `'N'`, `'a'`, `'N'`. -/
def nanBitAt (j : Nat) : WriteBit :=
  if j < 5 then .zero else .junk

/-- Character `binOfCh[j]` for iteration `i` of the embedding loop. -/
def charBits (framed : List Nat) (i : Nat) : Nat → WriteBit :=
  match framed.get? i with
  | some c => bitAt c
  | none => nanBitAt

/-- One iteration of the inner `j` loop of `hide` (lines 107-119): if the
pixel byte is even and the bit character is `'1'`, OR it with 1; if it is odd
(or `undefined`) and the bit character is `'0'`, AND it with
`((1<<8)-1)<<1 = 510`; otherwise leave it.  On a fixed-length pixel array the
out-of-range assignment has no effect, hence the `none` case. -/
def writeBitAt (buf : List Nat) (idx : Nat) (wb : WriteBit) : List Nat :=
  match buf.get? idx with
  | none => buf
  | some p =>
    if p % 2 = 0 then
      if wb = .one then buf.set idx (p ||| 1) else buf
    else
      if wb = .zero then buf.set idx (p &&& 510) else buf

/-- The inner `j` loop of `hide` for character `i`: bits `0..7` written at
pixel indices `8*i .. 8*i+7`. -/
def writeChar (buf : List Nat) (i : Nat) (bits : Nat → WriteBit) : List Nat :=
  (List.range 8).foldl (fun b j => writeBitAt b (8 * i + j) (bits j)) buf

/-- The outer `while (i < msg.length + 4)` loop of `hide` (lines 103-122),
with `fuel` remaining iterations and `i` the current character index. -/
def embedFrom (framed : List Nat) : Nat → List Nat → Nat → List Nat
  | 0, buf, _ => buf
  | fuel + 1, buf, i => embedFrom framed fuel (writeChar buf i (charBits framed i)) (i + 1)

/-- The whole embedding loop: `msg.length + 4` iterations starting at
character 0, pixel index 0. -/
def embed (buf framed : List Nat) : List Nat :=
  embedFrom framed (framed.length + 4) buf 0

/-- Function `StegModule.prototype.hide` (lines 55-126): frame the message, capacity
check (`msg.length > ppmOut.pixelBytes.length` — note: byte length, not bit
length), "stg control" decode of the first three payload bytes (from the
still-unmodified copy, whose bytes equal the source's), then embed into the
copy. -/
def hide (img : Ppm) (msg : List Nat) : Except String Ppm :=
  if (framedMsg msg).length > img.pixelBytes.length then
    .error STEG_TOO_BIG_ERR
  else if decodeFirst3 img.pixelBytes = STEG_MAGIC then
    .error STEG_MSG_ERR
  else
    .ok { img with pixelBytes := embed img.pixelBytes (framedMsg msg) }

/-- The `while (i < this.ppm.pixelBytes.length && ch !== '\0')` loop of
`unhide` (lines 157-179).  `ch` is `none` before the first assignment
(JavaScript `undefined`, which satisfies `ch !== '\0'`); each iteration
decodes payload byte `i`, appends it to `message` and stores it in `ch`. -/
def unhideGo (buf : List Nat) (len : Nat) :
    Nat → Nat → List Nat → Option Nat → List Nat × Option Nat
  | 0, _, message, ch => (message, ch)
  | fuel + 1, i, message, ch =>
    if i < len ∧ ch ≠ some 0 then
      unhideGo buf len fuel (i + 1) (message ++ [decodeByte buf i]) (some (decodeByte buf i))
    else (message, ch)

/-- The final `message` and `ch` values of `unhide`'s decode loop. -/
def unhideResult (buf : List Nat) : List Nat × Option Nat :=
  unhideGo buf buf.length buf.length 0 [] none

/-- Function `StegModule.prototype.unhide` (lines 147-197): run the decode loop, fail
with `STEG_BAD_MSG` if it stopped without `ch === '\0'`, then test
`message[0] === 's' && message[1] === 't' && message[2] == 'g'` and either
return `message[3..]` (note: `message` still ends with the decoded NUL) or
fail with `STEG_NO_MSG`. -/
def unhide (img : Ppm) : Except String (List Nat) :=
  if (unhideResult img.pixelBytes).2 ≠ some 0 then
    .error STEG_BAD_MSG_ERR
  else if (unhideResult img.pixelBytes).1.get? 0 = some 115 ∧
      (unhideResult img.pixelBytes).1.get? 1 = some 116 ∧
      (unhideResult img.pixelBytes).1.get? 2 = some 103 then
    .ok ((unhideResult img.pixelBytes).1.drop 3)
  else
    .error STEG_NO_MSG_ERR

/-! Concrete images used by counterexamples and witnesses. -/

/-- A 48-byte all-even pixel buffer (exactly the bit capacity of the framed
message `stg ++ "hi" ++ NUL`). -/
def img48 : Ppm := ⟨"P6", [], (4, 4), 255, List.replicate 48 0⟩

/-- A 40-byte buffer whose byte at index 32 (the first index past the framed
message of the empty message) is odd. -/
def img40 : Ppm := ⟨"P6", [], (4, 4), 255, List.replicate 32 0 ++ [1] ++ List.replicate 7 0⟩

/-- An 8-byte all-even buffer: big enough for the source's byte-length
capacity test with an empty message, far too small for its 32 embedded bits. -/
def img8 : Ppm := ⟨"P6", [], (2, 2), 255, List.replicate 8 0⟩

/-- A 5-byte all-even buffer. -/
def img5 : Ppm := ⟨"P6", [], (1, 1), 255, List.replicate 5 0⟩

/-- A 24-byte all-even buffer. -/
def img24 : Ppm := ⟨"P6", [], (2, 4), 255, List.replicate 24 0⟩

/-- A 24-byte buffer whose LSBs already spell `stg`. -/
def img24magic : Ppm :=
  ⟨"P6", [], (2, 4), 255,
    [0, 1, 1, 1, 0, 0, 1, 1, 0, 1, 1, 1, 0, 1, 0, 0, 0, 1, 1, 0, 0, 1, 1, 1]⟩

/-- An image with an empty pixel buffer. -/
def img0 : Ppm := ⟨"P6", [], (0, 0), 255, []⟩

/-! Helper lemmas about the write primitives. -/

theorem lor_one_mod_two (p : Nat) : (p ||| 1) % 2 = 1 := by
  have h : (p ||| 1).testBit 0 = true := by
    simp [Nat.testBit_or]
  rw [Nat.testBit_zero] at h
  exact of_decide_eq_true h

theorem land_510_mod_two (p : Nat) : (p &&& 510) % 2 = 0 := by
  have h : (p &&& 510).testBit 0 = false := by
    simp [Nat.testBit_and]
  rw [Nat.testBit_zero] at h
  rcases Nat.mod_two_eq_zero_or_one (p &&& 510) with h2 | h2
  · exact h2
  · simp [h2] at h

theorem length_writeBitAt (buf : List Nat) (idx : Nat) (wb : WriteBit) :
    (writeBitAt buf idx wb).length = buf.length := by
  unfold writeBitAt
  split
  · rfl
  · split_ifs <;> simp [List.length_set]

theorem range_eight : List.range 8 = [0, 1, 2, 3, 4, 5, 6, 7] := by decide

theorem length_writeChar (buf : List Nat) (i : Nat) (bits : Nat → WriteBit) :
    (writeChar buf i bits).length = buf.length := by
  unfold writeChar
  rw [range_eight]
  simp [List.foldl, length_writeBitAt]

theorem length_embedFrom (framed : List Nat) :
    ∀ fuel buf i, (embedFrom framed fuel buf i).length = buf.length := by
  intro fuel
  induction fuel with
  | zero => intro buf i; rfl
  | succ n ih =>
    intro buf i
    unfold embedFrom
    rw [ih, length_writeChar]

theorem length_embed (buf framed : List Nat) : (embed buf framed).length = buf.length :=
  length_embedFrom framed (framed.length + 4) buf 0

end Steg

namespace Steg

/-- C1 (code_bug evaluation): hiding `"hi"` (codes `[104, 105]`) in a 48-byte
all-even buffer and immediately unhiding does not give back `"hi"`: the
decoded message keeps the terminating NUL, because `unhide` appends the
decoded terminator to `message` and then returns every character of `message`
from index 3 on.  The source's own doc comment says the returned message must
not contain the terminating NUL. -/
theorem c1_roundtrip_keeps_terminator :
    (hide img48 [104, 105]).bind unhide = .ok [104, 105, 0] ∧
      ([104, 105, 0] : List Nat) ≠ [104, 105] := by
  constructor
  · rfl
  · decide

/-- C2 (code_bug evaluation): the embedding loop of `hide` runs for
`msg.length + 4` iterations, so it keeps writing past the
`8 × FramedMessage.length` prefix: with the empty message (framed length 4,
prefix 32) it clears the LSB of pixel byte 32, which the claim says must stay
untouched. -/
theorem c2_embed_overruns_frame :
    img40.pixelBytes.get? 32 = some 1 ∧
    8 * (framedMsg []).length = 32 ∧
    (hide img40 []).map (fun p => p.pixelBytes.get? 32) = .ok (some 0) := by
  refine ⟨by decide, by decide, rfl⟩

/-- C3 (code_bug evaluation): `hide` compares the framed message's byte
length, not its bit length, against the buffer length: an 8-byte buffer can
hold only 8 embedded bits, yet hiding the empty message (framed bit length 32)
succeeds instead of failing with `STEG_TOO_BIG`. -/
theorem c3_capacity_counts_bytes_not_bits :
    8 * (framedMsg []).length > img8.pixelBytes.length ∧
    (hide img8 []).isOk = true := by
  refine ⟨by decide, rfl⟩

/-- C4: provided the capacity test passed, `hide` fails with the `STEG_MSG`
error exactly when the first three payload bytes decoded from the source
pixel bytes equal the magic token. -/
theorem c4_already_hidden_iff (img : Ppm) (msg : List Nat)
    (hcap : (framedMsg msg).length ≤ img.pixelBytes.length) :
    hide img msg = .error STEG_MSG_ERR ↔ decodeFirst3 img.pixelBytes = STEG_MAGIC := by
  have h1 : ¬ (framedMsg msg).length > img.pixelBytes.length := by omega
  by_cases h2 : decodeFirst3 img.pixelBytes = STEG_MAGIC
  · simp [hide, h1, h2]
  · simp [hide, h1, h2]

/-- C4 witness: a 24-byte buffer whose LSBs already spell `stg` makes `hide`
fail with the `STEG_MSG` error. -/
theorem c4_already_hidden_iff_witness :
    hide img24magic [] = .error STEG_MSG_ERR :=
  (c4_already_hidden_iff img24magic [] (by decide)).mpr (by decide)

/-- C8: every error string returned by `hide` begins with the literal token
`STEG_TOO_BIG` or `STEG_MSG`, and every error string returned by `unhide`
begins with `STEG_NO_MSG` or `STEG_BAD_MSG`, each followed by descriptive
text. -/
theorem c8_error_strings_prefixed (img : Ppm) (msg : List Nat) (e : String) :
    (hide img msg = .error e →
      ((∃ rest, e = "STEG_TOO_BIG" ++ rest) ∨ (∃ rest, e = "STEG_MSG" ++ rest))) ∧
    (unhide img = .error e →
      ((∃ rest, e = "STEG_NO_MSG" ++ rest) ∨ (∃ rest, e = "STEG_BAD_MSG" ++ rest))) := by
  constructor
  · intro h
    unfold hide at h
    by_cases h1 : (framedMsg msg).length > img.pixelBytes.length
    · rw [if_pos h1, Except.error.injEq] at h
      subst h
      exact Or.inl ⟨" error!", rfl⟩
    · rw [if_neg h1] at h
      by_cases h2 : decodeFirst3 img.pixelBytes = STEG_MAGIC
      · rw [if_pos h2, Except.error.injEq] at h
        subst h
        exact Or.inr ⟨": image already contains a hidden message!", rfl⟩
      · rw [if_neg h2] at h
        exact absurd h (by simp)
  · intro h
    unfold unhide at h
    by_cases h1 : (unhideResult img.pixelBytes).2 ≠ some 0
    · rw [if_pos h1, Except.error.injEq] at h
      subst h
      exact Or.inr ⟨": bad message!", rfl⟩
    · rw [if_neg h1] at h
      by_cases h2 : (unhideResult img.pixelBytes).1.get? 0 = some 115 ∧
          (unhideResult img.pixelBytes).1.get? 1 = some 116 ∧
          (unhideResult img.pixelBytes).1.get? 2 = some 103
      · rw [if_pos h2] at h
        exact absurd h (by simp)
      · rw [if_neg h2, Except.error.injEq] at h
        subst h
        exact Or.inl ⟨": image does not have a message!", rfl⟩

/-- C8 witness: both conclusions at concrete error-producing inputs (the
empty-buffer image makes `hide` fail the capacity check and `unhide` miss the
terminator). -/
theorem c8_error_strings_prefixed_witness :
    ((∃ rest, STEG_TOO_BIG_ERR = "STEG_TOO_BIG" ++ rest) ∨
      (∃ rest, STEG_TOO_BIG_ERR = "STEG_MSG" ++ rest)) ∧
    ((∃ rest, STEG_BAD_MSG_ERR = "STEG_NO_MSG" ++ rest) ∨
      (∃ rest, STEG_BAD_MSG_ERR = "STEG_BAD_MSG" ++ rest)) :=
  ⟨(c8_error_strings_prefixed img0 [] STEG_TOO_BIG_ERR).1 rfl,
   (c8_error_strings_prefixed img0 [] STEG_BAD_MSG_ERR).2 rfl⟩

/-- C9: a successful `hide` returns an image with the source's metadata
(header, comments, resolution, color depth) and a pixel buffer of the same
length as the source's; the source image itself is a value the pure codec
never changes. -/
theorem c9_source_preserved (img : Ppm) (msg : List Nat) (out : Ppm)
    (h : hide img msg = .ok out) :
    out.header = img.header ∧ out.comments = img.comments ∧
    out.resolution = img.resolution ∧ out.colorDepth = img.colorDepth ∧
    out.pixelBytes.length = img.pixelBytes.length := by
  unfold hide at h
  by_cases h1 : (framedMsg msg).length > img.pixelBytes.length
  · rw [if_pos h1] at h
    exact absurd h (by simp)
  · rw [if_neg h1] at h
    by_cases h2 : decodeFirst3 img.pixelBytes = STEG_MAGIC
    · rw [if_pos h2] at h
      exact absurd h (by simp)
    · rw [if_neg h2, Except.ok.injEq] at h
      subst h
      exact ⟨rfl, rfl, rfl, rfl, length_embed img.pixelBytes (framedMsg msg)⟩

/-- C9 witness: applying the preservation theorem to the successful hide of
`"hi"` into the 48-byte buffer. -/
theorem c9_source_preserved_witness :
    (hide img48 [104, 105]).map Ppm.pixelBytes = .ok (embed img48.pixelBytes (framedMsg [104, 105])) ∧
    (embed img48.pixelBytes (framedMsg [104, 105])).length = img48.pixelBytes.length :=
  ⟨rfl,
   (c9_source_preserved img48 [104, 105]
      ⟨img48.header, img48.comments, img48.resolution, img48.colorDepth,
        embed img48.pixelBytes (framedMsg [104, 105])⟩ rfl).2.2.2.2⟩

/-- C10: `unhide` on an image with an empty pixel buffer fails with the
`STEG_BAD_MSG` error (the loop never runs, so `ch` keeps its initial
undefined value, which is not the NUL terminator). -/
theorem c10_empty_buffer_bad_msg (img : Ppm) (h : img.pixelBytes = []) :
    unhide img = .error STEG_BAD_MSG_ERR := by
  have h0 : unhideResult ([] : List Nat) = ([], none) := rfl
  unfold unhide
  rw [h, h0]
  simp

/-- C10 witness: the concrete empty-buffer image. -/
theorem c10_empty_buffer_bad_msg_witness :
    unhide img0 = .error STEG_BAD_MSG_ERR :=
  c10_empty_buffer_bad_msg img0 rfl

/-! Lemmas about the decode loop of `unhide`. -/

/-- A payload byte whose eighth pixel index is out of range decodes to an odd
value (its last bit is the out-of-range `1`), hence never to the NUL. -/
theorem decodeByte_pos_of_oob (buf : List Nat) (k : Nat) (h : buf.length ≤ 8 * k + 7) :
    decodeByte buf k ≠ 0 := by
  have h7 : lsbAt buf (8 * k + 7) = 1 := by
    unfold lsbAt
    rw [List.get?_eq_none.mpr h]
  have hmod : decodeByte buf k % 2 = 1 := by
    unfold decodeByte
    rw [range_eight]
    simp only [List.foldl]
    omega
  omega

/-- Only a fully in-range group of eight pixel bytes can decode to NUL. -/
theorem zero_decode_bound (buf : List Nat) (k : Nat) (h : decodeByte buf k = 0) :
    k < buf.length / 8 := by
  by_contra hk
  exact decodeByte_pos_of_oob buf k (by omega) h

/-- Once `ch` holds the terminator the loop exits immediately. -/
theorem unhideGo_stop (buf : List Nat) (len : Nat) (fuel i : Nat) (msg : List Nat) :
    unhideGo buf len fuel i msg (some 0) = (msg, some 0) := by
  cases fuel with
  | zero => rfl
  | succ n => simp [unhideGo]

/-- The loop ends with `ch = '\0'` exactly when some in-range group in the
remaining fuel decodes to NUL. -/
theorem unhideGo_snd (buf : List Nat) (len : Nat) :
    ∀ fuel i msg ch, ch ≠ some 0 →
      ((unhideGo buf len fuel i msg ch).2 = some 0 ↔
        ∃ k, i ≤ k ∧ k < len ∧ k < i + fuel ∧ decodeByte buf k = 0) := by
  intro fuel
  induction fuel with
  | zero =>
    intro i msg ch hch
    constructor
    · intro h
      exact absurd h hch
    · rintro ⟨k, hk1, _, hk3, _⟩
      omega
  | succ n ih =>
    intro i msg ch hch
    by_cases hi : i < len
    · simp only [unhideGo]
      rw [if_pos ⟨hi, hch⟩]
      by_cases hv : decodeByte buf i = 0
      · rw [hv, unhideGo_stop]
        constructor
        · intro _
          exact ⟨i, Nat.le_refl i, hi, by omega, hv⟩
        · intro _
          rfl
      · rw [ih (i + 1) (msg ++ [decodeByte buf i]) (some (decodeByte buf i)) (by simpa using hv)]
        constructor
        · rintro ⟨k, hk1, hk2, hk3, hk4⟩
          exact ⟨k, by omega, hk2, by omega, hk4⟩
        · rintro ⟨k, hk1, hk2, hk3, hk4⟩
          have hne : k ≠ i := fun he => hv (he ▸ hk4)
          exact ⟨k, by omega, hk2, by omega, hk4⟩
    · simp only [unhideGo]
      rw [if_neg (by tauto)]
      constructor
      · intro h
        exact absurd h hch
      · rintro ⟨k, hk1, hk2, _, _⟩
        omega

/-- C5: `unhide` fails with the `STEG_BAD_MSG` error exactly when no payload
byte decoded from a full in-range group of eight pixel bytes is the NUL, i.e.
the buffer is exhausted without a terminator (partially or fully out-of-range
groups decode to odd values, so they can never yield NUL). -/
theorem c5_bad_msg_iff (img : Ppm) :
    unhide img = .error STEG_BAD_MSG_ERR ↔
      ∀ k < img.pixelBytes.length / 8, decodeByte img.pixelBytes k ≠ 0 := by
  have hmain := unhideGo_snd img.pixelBytes img.pixelBytes.length
    img.pixelBytes.length 0 [] none (by simp)
  have hiff : (unhideResult img.pixelBytes).2 = some 0 ↔
      ∃ k, k < img.pixelBytes.length / 8 ∧ decodeByte img.pixelBytes k = 0 := by
    unfold unhideResult
    rw [hmain]
    constructor
    · rintro ⟨k, _, _, _, hk4⟩
      exact ⟨k, zero_decode_bound _ k hk4, hk4⟩
    · rintro ⟨k, hk1, hk2⟩
      exact ⟨k, Nat.zero_le k, by omega, by omega, hk2⟩
  constructor
  · intro h k hk hzero
    have h0 : (unhideResult img.pixelBytes).2 = some 0 := hiff.mpr ⟨k, hk, hzero⟩
    unfold unhide at h
    rw [if_neg (by simp [h0])] at h
    by_cases h2 : (unhideResult img.pixelBytes).1.get? 0 = some 115 ∧
        (unhideResult img.pixelBytes).1.get? 1 = some 116 ∧
        (unhideResult img.pixelBytes).1.get? 2 = some 103
    · rw [if_pos h2] at h
      exact absurd h (by simp)
    · rw [if_neg h2, Except.error.injEq] at h
      exact absurd h (by decide)
  · intro hall
    have h0 : (unhideResult img.pixelBytes).2 ≠ some 0 := by
      intro hc
      obtain ⟨k, hk1, hk2⟩ := hiff.mp hc
      exact hall k hk1 hk2
    unfold unhide
    rw [if_pos h0]

/-- When group `t` is the first to decode to NUL, the loop returns exactly the
decoded bytes `0..t` and the terminator flag. -/
theorem unhideGo_reach (buf : List Nat) (len : Nat) :
    ∀ fuel i msg ch, ch ≠ some 0 → ∀ t, i ≤ t → t < len → t < i + fuel →
      decodeByte buf t = 0 → (∀ j, i ≤ j → j < t → decodeByte buf j ≠ 0) →
      unhideGo buf len fuel i msg ch =
        (msg ++ (List.range' i (t - i + 1)).map (decodeByte buf), some 0) := by
  intro fuel
  induction fuel with
  | zero =>
    intro i msg ch hch t h1 h2 h3 ht hfirst
    omega
  | succ n ih =>
    intro i msg ch hch t h1 h2 h3 ht hfirst
    have hi : i < len := by omega
    simp only [unhideGo]
    rw [if_pos ⟨hi, hch⟩]
    by_cases he : t = i
    · subst he
      rw [ht, unhideGo_stop]
      have h4 : t - t + 1 = 1 := by omega
      rw [h4, show List.range' t 1 = [t] from rfl]
      simp [ht]
    · have hlt : i < t := by omega
      have hv : decodeByte buf i ≠ 0 := hfirst i (Nat.le_refl i) hlt
      rw [ih (i + 1) (msg ++ [decodeByte buf i]) (some (decodeByte buf i)) (by simpa using hv)
        t (by omega) h2 (by omega) ht (fun j hj1 hj2 => hfirst j (by omega) hj2)]
      have h4 : t - i + 1 = (t - (i + 1) + 1) + 1 := by omega
      rw [h4, show List.range' i ((t - (i + 1) + 1) + 1) = i :: List.range' (i + 1) (t - (i + 1) + 1) from rfl]
      simp

/-- Index `j ≤ t` of the decoded message list. -/
theorem get?_message (buf : List Nat) (t j : Nat) (hj : j ≤ t) :
    ((List.range (t + 1)).map (decodeByte buf)).get? j = some (decodeByte buf j) := by
  rw [List.get?_map, List.get?_range (by omega)]
  rfl

/-- C6: if `unhide` decodes a NUL terminator (first at group `t`, inside the
buffer) and the decoded bytes before the terminator do not begin with the
magic token, it fails with the `STEG_NO_MSG` error. -/
theorem c6_no_msg_of_bad_start (img : Ppm) (t : Nat)
    (hterm : decodeByte img.pixelBytes t = 0)
    (hfirst : ∀ j < t, decodeByte img.pixelBytes j ≠ 0)
    (hex : t < img.pixelBytes.length / 8)
    (hpre : (decodedBytesBefore img.pixelBytes t).take 3 ≠ STEG_MAGIC) :
    unhide img = .error STEG_NO_MSG_ERR := by
  have hlen : t < img.pixelBytes.length := by omega
  have hrun : unhideResult img.pixelBytes =
      ((List.range (t + 1)).map (decodeByte img.pixelBytes), some 0) := by
    unfold unhideResult
    rw [unhideGo_reach img.pixelBytes img.pixelBytes.length img.pixelBytes.length 0 [] none
      (by simp) t (Nat.zero_le t) hlen (by omega) hterm (fun j _ hj2 => hfirst j hj2)]
    have h4 : t - 0 + 1 = t + 1 := by omega
    rw [h4, ← List.range_eq_range']
    simp
  have hC : ¬(((List.range (t + 1)).map (decodeByte img.pixelBytes)).get? 0 = some 115 ∧
      ((List.range (t + 1)).map (decodeByte img.pixelBytes)).get? 1 = some 116 ∧
      ((List.range (t + 1)).map (decodeByte img.pixelBytes)).get? 2 = some 103) := by
    rintro ⟨hc0, hc1, hc2⟩
    by_cases h3 : 3 ≤ t
    · apply hpre
      rw [get?_message _ _ _ (by omega), Option.some.injEq] at hc0
      rw [get?_message _ _ _ (by omega), Option.some.injEq] at hc1
      rw [get?_message _ _ _ (by omega), Option.some.injEq] at hc2
      unfold decodedBytesBefore
      rw [← List.map_take, List.take_range, min_eq_left (by omega),
        show List.range 3 = [0, 1, 2] from by decide]
      simp [hc0, hc1, hc2, STEG_MAGIC]
    · interval_cases t
      · rw [get?_message _ _ _ (Nat.le_refl 0), hterm] at hc0
        exact absurd hc0 (by decide)
      · rw [get?_message _ _ _ (Nat.le_refl 1), hterm] at hc1
        exact absurd hc1 (by decide)
      · rw [get?_message _ _ _ (Nat.le_refl 2), hterm] at hc2
        exact absurd hc2 (by decide)
  unfold unhide
  rw [hrun]
  rw [if_neg (by simp)]
  rw [if_neg hC]

/-- C6 witness: eight all-even pixel bytes decode to a NUL immediately (t = 0)
and the empty byte list before the terminator does not begin with the magic
token, so `unhide` reports `STEG_NO_MSG`. -/
theorem c6_no_msg_of_bad_start_witness :
    unhide img8 = .error STEG_NO_MSG_ERR :=
  c6_no_msg_of_bad_start img8 0 (by decide) (fun j hj => absurd hj (by omega))
    (by decide) (by decide)

/-! Lemmas about the write side of `hide`, leading to the corrected form of
the idempotent-rejection property. -/

theorem bitAt_ne_junk (c j : Nat) : bitAt c j ≠ WriteBit.junk := by
  unfold bitAt
  split <;> decide

theorem get?_writeBitAt_ne (buf : List Nat) (idx : Nat) (wb : WriteBit) (j : Nat)
    (h : j ≠ idx) :
    (writeBitAt buf idx wb).get? j = buf.get? j := by
  unfold writeBitAt
  split
  · rfl
  · split_ifs <;> first | rfl | rw [List.get?_set_ne _ _ (Ne.symm h)]

theorem lsbAt_writeBitAt_ne (buf : List Nat) (idx : Nat) (wb : WriteBit) (j : Nat)
    (h : j ≠ idx) :
    lsbAt (writeBitAt buf idx wb) j = lsbAt buf j := by
  unfold lsbAt
  rw [get?_writeBitAt_ne buf idx wb j h]

/-- Provided the bit character is a real `'0'` or `'1'`, the written pixel
byte's LSB equals that bit, whatever the previous byte was. -/
theorem lsbAt_writeBitAt_self (buf : List Nat) (idx : Nat) (wb : WriteBit)
    (h : idx < buf.length) (hwb : wb ≠ WriteBit.junk) :
    lsbAt (writeBitAt buf idx wb) idx = if wb = WriteBit.one then 1 else 0 := by
  have hp : buf[idx]? = some buf[idx] := List.getElem?_eq_getElem h
  have hred : writeBitAt buf idx wb =
      (if buf[idx] % 2 = 0 then
        (if wb = WriteBit.one then buf.set idx (buf[idx] ||| 1) else buf)
      else
        (if wb = WriteBit.zero then buf.set idx (buf[idx] &&& 510) else buf)) := by
    unfold writeBitAt
    rw [List.get?_eq_getElem?, hp]
  rw [hred]
  cases wb with
  | junk => exact absurd rfl hwb
  | one =>
    rcases Nat.mod_two_eq_zero_or_one buf[idx] with hpar | hpar
    · simp [lsbAt, hpar, List.getElem?_set_eq_of_lt, h, lor_one_mod_two]
    · simp [lsbAt, hp, hpar]
  | zero =>
    rcases Nat.mod_two_eq_zero_or_one buf[idx] with hpar | hpar
    · simp [lsbAt, hp, hpar]
    · simp [lsbAt, hpar, List.getElem?_set_eq_of_lt, h, land_510_mod_two]

/-- Writing character `i` touches only pixel indices `8*i .. 8*i+7`. -/
theorem get?_writeChar_lt (buf : List Nat) (i : Nat) (bits : Nat → WriteBit) (j : Nat)
    (h : j < 8 * i) :
    (writeChar buf i bits).get? j = buf.get? j := by
  unfold writeChar
  rw [range_eight]
  simp only [List.foldl]
  repeat rw [get?_writeBitAt_ne _ _ _ _ (by omega)]

/-- After writing character code `c` at group `i` (all eight pixel indices in
range), the LSB at position `8*i+j` is bit `j` of `c`. -/
theorem lsbAt_writeChar_self (buf : List Nat) (i c j : Nat)
    (hj : j < 8) (h : 8 * i + 7 < buf.length) :
    lsbAt (writeChar buf i (bitAt c)) (8 * i + j) =
      if bitAt c j = WriteBit.one then 1 else 0 := by
  unfold writeChar
  rw [range_eight]
  simp only [List.foldl]
  interval_cases j
  all_goals repeat rw [lsbAt_writeBitAt_ne _ _ _ _ (by omega)]
  all_goals rw [lsbAt_writeBitAt_self _ _ _ (by simp [length_writeBitAt]; omega) (bitAt_ne_junk c _)]

/-- The characters written from index `i` on never change pixel bytes below
`8*i`. -/
theorem get?_embedFrom_lt (framed : List Nat) :
    ∀ fuel buf i j, j < 8 * i → (embedFrom framed fuel buf i).get? j = buf.get? j := by
  intro fuel
  induction fuel with
  | zero => intro buf i j h; rfl
  | succ n ih =>
    intro buf i j h
    unfold embedFrom
    rw [ih _ (i + 1) j (by omega), get?_writeChar_lt _ _ _ j h]

/-- Decoding group `k` of the embedded buffer recovers character `k` of the
framed message (modulo 256), provided its eight pixel bytes are in range. -/
theorem decodeByte_writeChar_self (buf : List Nat) (k c : Nat) (h : 8 * k + 7 < buf.length) :
    decodeByte (writeChar buf k (bitAt c)) k = c % 256 := by
  have h256 : ∀ m, m < 256 → (List.range 8).foldl
      (fun acc j => 2 * acc + (if bitAt m j = WriteBit.one then 1 else 0)) 0 = m := by decide
  have hbits : ∀ j, j < 8 → bitAt (c % 256) j = bitAt c j := by
    intro j hj
    unfold bitAt
    rw [show c % 256 % 256 = c % 256 from by omega]
  have hm := h256 (c % 256) (by omega)
  rw [range_eight] at hm
  simp only [List.foldl] at hm
  rw [hbits 0 (by omega), hbits 1 (by omega), hbits 2 (by omega), hbits 3 (by omega),
    hbits 4 (by omega), hbits 5 (by omega), hbits 6 (by omega), hbits 7 (by omega)] at hm
  unfold decodeByte
  rw [range_eight]
  simp only [List.foldl]
  rw [lsbAt_writeChar_self buf k c 0 (by omega) h, lsbAt_writeChar_self buf k c 1 (by omega) h,
    lsbAt_writeChar_self buf k c 2 (by omega) h, lsbAt_writeChar_self buf k c 3 (by omega) h,
    lsbAt_writeChar_self buf k c 4 (by omega) h, lsbAt_writeChar_self buf k c 5 (by omega) h,
    lsbAt_writeChar_self buf k c 6 (by omega) h, lsbAt_writeChar_self buf k c 7 (by omega) h]
  exact hm

/-- Decoding group `k` of the fully embedded buffer recovers framed character
`k` (modulo 256), provided its eight pixel bytes are in range. -/
theorem decodeByte_embedFrom (framed : List Nat) :
    ∀ fuel i k, i ≤ k → k < i + fuel → ∀ buf, 8 * k + 7 < buf.length →
      ∀ c, framed.get? k = some c →
      decodeByte (embedFrom framed fuel buf i) k = c % 256 := by
  intro fuel
  induction fuel with
  | zero =>
    intro i k h1 h2
    omega
  | succ n ih =>
    intro i k h1 h2 buf hlen c hc
    unfold embedFrom
    by_cases he : i = k
    · subst he
      have hcb : charBits framed i = bitAt c := by
        unfold charBits
        rw [hc]
      rw [hcb]
      have hpres : ∀ j, j < 8 * (i + 1) →
          lsbAt (embedFrom framed n (writeChar buf i (bitAt c)) (i + 1)) j =
            lsbAt (writeChar buf i (bitAt c)) j := by
        intro j hj
        unfold lsbAt
        rw [get?_embedFrom_lt framed n _ (i + 1) j hj]
      have hfin := decodeByte_writeChar_self buf i c hlen
      unfold decodeByte at hfin ⊢
      rw [range_eight] at hfin ⊢
      simp only [List.foldl] at hfin ⊢
      rw [hpres (8 * i + 0) (by omega), hpres (8 * i + 1) (by omega),
        hpres (8 * i + 2) (by omega), hpres (8 * i + 3) (by omega),
        hpres (8 * i + 4) (by omega), hpres (8 * i + 5) (by omega),
        hpres (8 * i + 6) (by omega), hpres (8 * i + 7) (by omega)]
      exact hfin
    · exact ih (i + 1) k (by omega) (by omega) (writeChar buf i (charBits framed i))
        (by rw [length_writeChar]; omega) c hc

theorem framedMsg_length (msg : List Nat) : (framedMsg msg).length = msg.length + 4 := by
  simp [framedMsg, STEG_MAGIC]

/-- A buffer of at least 24 bytes that went through `embed` starts with the
magic token in its LSBs. -/
theorem decodeFirst3_embed (buf : List Nat) (msg : List Nat) (h : 24 ≤ buf.length) :
    decodeFirst3 (embed buf (framedMsg msg)) = STEG_MAGIC := by
  have hl : (framedMsg msg).length = msg.length + 4 := framedMsg_length msg
  unfold decodeFirst3 embed
  rw [decodeByte_embedFrom (framedMsg msg) ((framedMsg msg).length + 4) 0 0 (Nat.le_refl 0)
      (by omega) buf (by omega) 115 rfl,
    decodeByte_embedFrom (framedMsg msg) ((framedMsg msg).length + 4) 0 1 (by omega)
      (by omega) buf (by omega) 116 rfl,
    decodeByte_embedFrom (framedMsg msg) ((framedMsg msg).length + 4) 0 2 (by omega)
      (by omega) buf (by omega) 103 rfl]
  decide

/-- C7 counterexample: on a 5-byte all-even source, hiding the empty message
succeeds, and hiding again into the returned image with a capacity-sufficient
message also succeeds instead of failing with the `STEG_MSG` error: the first
hide could only place the first five bits of `'s'`, so the already-hidden
check of the second call does not see the magic token. -/
theorem c7_second_hide_succeeds :
    (framedMsg []).length ≤ img5.pixelBytes.length ∧
    ((hide img5 []).bind (fun p => hide p [])).isOk = true := by
  exact ⟨by decide, rfl⟩

/-- C7 (amended): if the source buffer holds at least 24 pixel bytes — enough
for the whole magic token to be embedded — then any successful `hide`
followed by a second `hide` with a capacity-sufficient message fails with the
`STEG_MSG` error. -/
theorem c7_idempotent_rejection_amended (src : Ppm) (m m2 : List Nat) (out : Ppm)
    (hlen : 24 ≤ src.pixelBytes.length)
    (h1 : hide src m = .ok out)
    (hcap : (framedMsg m2).length ≤ out.pixelBytes.length) :
    hide out m2 = .error STEG_MSG_ERR := by
  unfold hide at h1
  by_cases hc1 : (framedMsg m).length > src.pixelBytes.length
  · rw [if_pos hc1] at h1
    exact absurd h1 (by simp)
  · rw [if_neg hc1] at h1
    by_cases hc2 : decodeFirst3 src.pixelBytes = STEG_MAGIC
    · rw [if_pos hc2] at h1
      exact absurd h1 (by simp)
    · rw [if_neg hc2, Except.ok.injEq] at h1
      have hout : out.pixelBytes = embed src.pixelBytes (framedMsg m) := by
        rw [← h1]
      unfold hide
      rw [if_neg (by omega)]
      rw [hout]
      rw [if_pos (decodeFirst3_embed src.pixelBytes m hlen)]

/-- C7 witness: hiding the empty message into 24 all-even pixel bytes, then
hiding again into the result, hits the `STEG_MSG` error. -/
theorem c7_idempotent_rejection_amended_witness :
    hide ⟨"P6", [], (2, 4), 255, embed img24.pixelBytes (framedMsg [])⟩ [] =
      .error STEG_MSG_ERR :=
  c7_idempotent_rejection_amended img24 [] []
    ⟨"P6", [], (2, 4), 255, embed img24.pixelBytes (framedMsg [])⟩
    (by decide) rfl (by decide)

